import Mathlib

/-!
Verification of the dartboard geometry, zoom transform and marker/session
state of darts4you (static/js/board.js) against its design specification.

The JavaScript module is shallowly embedded: the derived board geometry
(computeSizes) is modelled over the rationals, the trigonometric click
mapping (_clickHandler, hitToCoord) over the reals with Complex.arg playing
the role of Math.atan2, and the mutable module state (marker layers, zoom
state, bulls-decider session, overlay bounds) as an explicit BoardState
record transformed by pure functions.
-/

open Real

namespace Board

/-- Sector order clockwise starting at top (board.js line 18). -/
def SECTOR_ORDER : List ℤ :=
  [20, 1, 18, 4, 13, 6, 10, 15, 2, 17, 3, 19, 7, 16, 8, 11, 14, 9, 12, 5]

/-- Derived geometric sizes, as recomputed by computeSizes from the canvas
width and height (board.js lines 217-234). -/
structure Sizes where
  W : ℚ
  H : ℚ
  cx : ℚ
  cy : ℚ
  outerRadius : ℚ
  tripleInner : ℚ
  tripleOuter : ℚ
  doubleInner : ℚ
  doubleOuter : ℚ
  bullOuter : ℚ
  bullInner : ℚ
  OUTER_MISS_RING : ℚ
  deriving Repr

/-- computeSizes (board.js lines 217-234): all radii derived from the canvas
width and height. -/
def computeSizes (W H : ℚ) : Sizes :=
  let outerRadius := (min W H / 2) * 0.78
  { W := W
    H := H
    cx := W / 2
    cy := H / 2
    outerRadius := outerRadius
    tripleInner := outerRadius * 0.58
    tripleOuter := outerRadius * 0.66
    doubleInner := outerRadius * 0.88
    doubleOuter := outerRadius
    bullOuter := outerRadius * 0.06
    bullInner := outerRadius * 0.03
    OUTER_MISS_RING := outerRadius * 1.35 }

/-- A scoring result: sector value, multiplier and display label. -/
structure HitResult where
  sector : ℤ
  multiplier : ℤ
  label : String
  deriving Repr, DecidableEq

/-- Math.atan2 dy dx, modelled by the argument of the complex number
dx + dy i (range is the interval from -pi exclusive to pi inclusive, with
atan2 0 0 = 0, as in JavaScript). -/
noncomputable def atan2 (dy dx : ℝ) : ℝ :=
  Complex.arg ⟨dx, dy⟩

open Classical in
/-- The wedge index computed by _clickHandler (board.js lines 824-834):
rotate the click angle so 0 sits at 12 o'clock, offset by half a wedge,
wrap into one turn and divide by the wedge angle. -/
noncomputable def sectorIndexAt (sz : Sizes) (lx ly : ℝ) : ℤ :=
  let dx := lx - (sz.cx : ℝ)
  let dy := ly - (sz.cy : ℝ)
  let ang := atan2 dy dx
  let normalized0 := ang + Real.pi / 2
  let normalized := if normalized0 < 0 then normalized0 + Real.pi * 2 else normalized0
  let slice := Real.pi * 2 / 20
  let adjusted0 := normalized + slice / 2
  let adjusted := if Real.pi * 2 ≤ adjusted0 then adjusted0 - Real.pi * 2 else adjusted0
  Int.floor (adjusted / (Real.pi * 2) * 20)

/-- Distance of the logical click position from the board center
(board.js lines 824-826). -/
noncomputable def radiusAt (sz : Sizes) (lx ly : ℝ) : ℝ :=
  Real.sqrt ((lx - (sz.cx : ℝ)) * (lx - (sz.cx : ℝ)) + (ly - (sz.cy : ℝ)) * (ly - (sz.cy : ℝ)))

/-- The sector value looked up from SECTOR_ORDER (board.js line 834). -/
noncomputable def sectorValueAt (sz : Sizes) (lx ly : ℝ) : ℤ :=
  SECTOR_ORDER.getD ((sectorIndexAt sz lx ly % 20).toNat) 0

open Classical in
/-- The radius-to-ring chain exactly as written in _clickHandler
(board.js lines 843-864): the OUT band is tested first, then bull, outer
bull, triple, double, and finally the single fallback. -/
noncomputable def ringCode (sz : Sizes) (r : ℝ) (sector : ℤ) : HitResult :=
  if (sz.outerRadius : ℝ) < r ∧ r ≤ (sz.OUTER_MISS_RING : ℝ) then
    ⟨0, 0, "OUT"⟩
  else if r ≤ (sz.bullInner : ℝ) then
    ⟨25, 2, "BULL"⟩
  else if r ≤ (sz.bullOuter : ℝ) then
    ⟨25, 1, "SBULL"⟩
  else if (sz.tripleInner : ℝ) ≤ r ∧ r ≤ (sz.tripleOuter : ℝ) then
    ⟨sector, 3, "T" ++ toString sector⟩
  else if (sz.doubleInner : ℝ) ≤ r ∧ r ≤ (sz.doubleOuter : ℝ) then
    ⟨sector, 2, "D" ++ toString sector⟩
  else
    ⟨sector, 1, "S" ++ toString sector⟩

open Classical in
/-- The radius-to-ring policy in the order the specification lists it
(spec section 4.1 step 5): bull, outer bull, triple, double, OUT, single.
This definition follows the spec's words and is compared with ringCode. -/
noncomputable def ringSpec (sz : Sizes) (r : ℝ) (sector : ℤ) : HitResult :=
  if r ≤ (sz.bullInner : ℝ) then
    ⟨25, 2, "BULL"⟩
  else if (sz.bullInner : ℝ) < r ∧ r ≤ (sz.bullOuter : ℝ) then
    ⟨25, 1, "SBULL"⟩
  else if (sz.tripleInner : ℝ) ≤ r ∧ r ≤ (sz.tripleOuter : ℝ) then
    ⟨sector, 3, "T" ++ toString sector⟩
  else if (sz.doubleInner : ℝ) ≤ r ∧ r ≤ (sz.doubleOuter : ℝ) then
    ⟨sector, 2, "D" ++ toString sector⟩
  else if (sz.outerRadius : ℝ) < r ∧ r ≤ (sz.OUTER_MISS_RING : ℝ) then
    ⟨0, 0, "OUT"⟩
  else
    ⟨sector, 1, "S" ++ toString sector⟩

open Classical in
/-- The scoring part of _clickHandler (board.js lines 824-864) on logical
coordinates: none when the click lands beyond the miss ring, otherwise the
ring chain applied to the radius and looked-up sector. -/
noncomputable def clickScore (sz : Sizes) (lx ly : ℝ) : Option HitResult :=
  if (sz.OUTER_MISS_RING : ℝ) < radiusAt sz lx ly then none
  else some (ringCode sz (radiusAt sz lx ly) (sectorValueAt sz lx ly))

open Classical in
/-- The scoring policy with the ring bands evaluated in the order the
specification lists them; the sector formula is the shared sectorValueAt. -/
noncomputable def specScore (sz : Sizes) (lx ly : ℝ) : Option HitResult :=
  if (sz.OUTER_MISS_RING : ℝ) < radiusAt sz lx ly then none
  else some (ringSpec sz (radiusAt sz lx ly) (sectorValueAt sz lx ly))

/-- A hit as passed to hitToCoord: optional stored normalized coordinates,
sector value and multiplier (board.js lines 417-445). -/
structure HitSpec where
  x : Option ℝ
  y : Option ℝ
  value : ℤ
  multiplier : ℤ

/-- JavaScript Array.prototype.indexOf: the index of the first occurrence,
or -1 when the value is absent. -/
def jsIndexOf (l : List ℤ) (v : ℤ) : ℤ :=
  if v ∈ l then (l.indexOf v : ℤ) else -1

open Classical in
/-- hitToCoord (board.js lines 418-445): stored normalized coordinates take
precedence; value 25 maps to the center; otherwise the wedge mid-angle at
the band-midpoint radius for the multiplier. -/
noncomputable def hitToCoord (W H : ℚ) (hit : HitSpec) : ℝ × ℝ :=
  let sz := computeSizes W H
  match hit.x, hit.y with
  | some hx, some hy =>
      if hx ≤ 1 ∧ hy ≤ 1 then (hx * (W : ℝ), hy * (H : ℝ)) else (hx, hy)
  | _, _ =>
      if hit.value = 25 then ((sz.cx : ℝ), (sz.cy : ℝ))
      else
        let slice := Real.pi * 2 / 20
        let idx := jsIndexOf SECTOR_ORDER hit.value
        let start := (idx : ℝ) * slice - Real.pi / 2 - slice / 2
        let mid := start + slice / 2
        let r : ℝ :=
          if hit.multiplier = 3 then ((sz.tripleInner : ℝ) + (sz.tripleOuter : ℝ)) / 2
          else if hit.multiplier = 2 then ((sz.doubleInner : ℝ) + (sz.doubleOuter : ℝ)) / 2
          else if hit.multiplier = 1 then
            ((sz.tripleOuter : ℝ) + (sz.doubleInner : ℝ)) / 2 - (sz.outerRadius : ℝ) * 0.03
          else (sz.OUTER_MISS_RING : ℝ)
        ((sz.cx : ℝ) + Real.cos mid * r, (sz.cy : ℝ) + Real.sin mid * r)

/-- The zoom/view state record (board.js lines 55-67): current scale and
normalized center plus the in-flight animation bookkeeping. -/
structure ZoomState where
  scale : ℝ
  centerX : ℝ
  centerY : ℝ
  animStart : Option ℝ
  animDuration : ℝ
  animFromScale : ℝ
  animFromCX : ℝ
  animFromCY : ℝ
  targetScale : ℝ
  targetCX : ℝ
  targetCY : ℝ

open Classical in
/-- animateZoomTo (board.js lines 261-304): clamp the arguments, capture the
current scale/center as the animation's from-state, record target and start
time; a zero duration applies the target immediately with no animation. -/
noncomputable def animateZoomTo (zs : ZoomState) (centerX centerY targetScale duration now : ℝ) :
    ZoomState :=
  let cX := max 0 (min 1 centerX)
  let cY := max 0 (min 1 centerY)
  let tS := max 1 (if targetScale = 0 then 1 else targetScale)
  let dur := max 0 duration
  let base : ZoomState :=
    { scale := zs.scale
      centerX := zs.centerX
      centerY := zs.centerY
      animStart := some now
      animDuration := dur
      animFromScale := zs.scale
      animFromCX := zs.centerX
      animFromCY := zs.centerY
      targetScale := tS
      targetCX := cX
      targetCY := cY }
  if dur = 0 then
    { base with scale := tS, centerX := cX, centerY := cY, animStart := none }
  else base

open Classical in
/-- One frame of the zoom animation (board.js lines 287-302): cubic
ease-out interpolation of scale and center from the animation record; the
animation record is cleared once t reaches 1. -/
noncomputable def stepRun (zs : ZoomState) (ts : ℝ) : ZoomState :=
  match zs.animStart with
  | none => zs
  | some start =>
      let t := min 1 ((ts - start) / zs.animDuration)
      let ease := 1 - (1 - t) ^ 3
      { zs with
        scale := zs.animFromScale + (zs.targetScale - zs.animFromScale) * ease
        centerX := zs.animFromCX + (zs.targetCX - zs.animFromCX) * ease
        centerY := zs.animFromCY + (zs.targetCY - zs.animFromCY) * ease
        animStart := if t < 1 then some start else none }

open Classical in
/-- applyZoomTransform as a map on logical points (board.js lines 247-258):
translate to the zoom center, scale, translate back; skipped entirely when
the scale is 1. -/
noncomputable def applyZoomTransformPoint (z : ZoomState) (W H : ℚ) (p : ℝ × ℝ) : ℝ × ℝ :=
  if z.scale = 1 then p
  else
    let zx := z.centerX * (W : ℝ)
    let zy := z.centerY * (H : ℝ)
    (zx + (p.1 - zx) * z.scale, zy + (p.2 - zy) * z.scale)

open Classical in
/-- The inverse mapping used by _clickHandler (board.js lines 814-822):
screen pixel coordinates back to logical board coordinates; the identity
when the scale is 1 (or 0, which is falsy in the source). -/
noncomputable def inverseLogical (z : ZoomState) (W H : ℚ) (px py : ℝ) : ℝ × ℝ :=
  if z.scale ≠ 0 ∧ z.scale ≠ 1 then
    let zx := z.centerX * (W : ℝ)
    let zy := z.centerY * (H : ℝ)
    (zx + (px - zx) / z.scale, zy + (py - zy) / z.scale)
  else (px, py)

/-- zoomToBull at the zoom-state level (board.js lines 654-657): the
requested scale is clamped into the closed interval from 1 to 6 before the
animation is started. -/
noncomputable def zoomToBullZS (zs : ZoomState) (scale duration now : ℝ) : ZoomState :=
  animateZoomTo zs 0.5 0.5 (max 1 (min 6 scale)) duration now

open Classical in
/-- zoomTo at the zoom-state level (board.js lines 651-653): the scale is
passed through unclamped; a falsy duration falls back to 300. -/
noncomputable def zoomToZS (zs : ZoomState) (cX cY scale duration now : ℝ) : ZoomState :=
  animateZoomTo zs cX cY scale (if duration = 0 then 300 else duration) now

/-- A marker object as pushed onto markerLayer or bullsMarkers
(board.js lines 678-694 and 892-918). -/
structure Marker where
  x : ℝ
  y : ℝ
  value : ℤ
  multiplier : ℤ
  label : Option String
  color : String
  animStart : Option ℝ
  animDur : Option ℝ

/-- A bulls-decider participant. -/
structure Player where
  id : ℤ
  name : String

/-- An axis-aligned overlay rectangle in screen coordinates. -/
structure OverlayRect where
  x : ℚ
  y : ℚ
  w : ℚ
  h : ℚ

/-- The overlay bounds exposed by drawBullsOverlay for click detection
(board.js lines 598-606). -/
structure OverlayBounds where
  x : ℚ
  y : ℚ
  w : ℚ
  h : ℚ
  btnZoom : OverlayRect
  btnCancel : OverlayRect

/-- The geometry of the decider overlay box and its two buttons
(board.js lines 529-533 and 572-578), a function of the canvas width. -/
def overlayBoundsFor (W : ℚ) : OverlayBounds :=
  let padding : ℚ := 10
  let boxW : ℚ := 260
  let boxH : ℚ := 86
  let x := W - boxW - 12
  let y : ℚ := 12
  let btnH : ℚ := 30
  let btnW : ℚ := 82
  let gap : ℚ := 8
  let btnZoomX := x + boxW - padding - btnW * 2 - gap
  let btnCancelX := x + boxW - padding - btnW
  let btnY := y + boxH - padding - btnH
  ⟨x, y, boxW, boxH, ⟨btnZoomX, btnY, btnW, btnH⟩, ⟨btnCancelX, btnY, btnW, btnH⟩⟩

/-- Containment in an overlay button rectangle, as tested by _clickHandler
(board.js lines 781-786): all four comparisons are inclusive. -/
def rectContains (rect : OverlayRect) (px py : ℝ) : Prop :=
  (rect.x : ℝ) ≤ px ∧ px ≤ (rect.x : ℝ) + (rect.w : ℝ) ∧
    (rect.y : ℝ) ≤ py ∧ py ≤ (rect.y : ℝ) + (rect.h : ℝ)

/-- The whole mutable module state of board.js: the two marker layers, the
zoom state, the bulls-decider session and the published overlay bounds. -/
structure BoardState where
  markerLayer : List Marker
  bullsMarkers : List Marker
  zoom : ZoomState
  bullsDeciderActive : Bool
  bullsDeciderOrder : List Player
  bullsDeciderCurrent : ℤ
  bullsDeciderZoomed : Bool
  overlay : Option OverlayBounds

open Classical in
/-- The per-marker animation cleanup performed by drawMarkersLayer
(board.js lines 461-463 and 481-484): once the pulse has finished the
animation metadata is deleted. -/
noncomputable def cleanupMarker (now defDur : ℝ) (m : Marker) : Marker :=
  match m.animStart with
  | none => m
  | some a =>
      let d := match m.animDur with
        | some v => if v = 0 then defDur else v
        | none => defDur
      let t := min 1 ((now - a) / d)
      if 1 ≤ t then { m with animStart := none, animDur := none } else m

open Classical in
/-- redrawAll = drawBoard (board.js lines 306-415 and 611-614): the only
module state it mutates is the marker animation metadata (drawMarkersLayer)
and the published overlay bounds (drawBullsOverlay, which are cleared when
the decider is inactive and the scale is 1). -/
noncomputable def redrawAll (W H : ℚ) (now : ℝ) (st : BoardState) : BoardState :=
  { st with
    markerLayer := st.markerLayer.map (cleanupMarker now 380)
    bullsMarkers := st.bullsMarkers.map (cleanupMarker now 420)
    overlay :=
      if st.bullsDeciderActive = false ∧ st.zoom.scale = 1 then none
      else some (overlayBoundsFor W) }

open Classical in
/-- animateZoomTo as a transition of the whole board state: the zoom record
is updated, and a zero-duration call redraws immediately. -/
noncomputable def stAnimateZoomTo (W H : ℚ) (now : ℝ) (st : BoardState)
    (cX cY tS dur : ℝ) : BoardState :=
  let st2 := { st with zoom := animateZoomTo st.zoom cX cY tS dur now }
  if max 0 dur = 0 then redrawAll W H now st2 else st2

/-- window.zoomToBull as a board-state transition (board.js lines 654-657). -/
noncomputable def stZoomToBull (W H : ℚ) (now : ℝ) (st : BoardState) (scale dur : ℝ) :
    BoardState :=
  stAnimateZoomTo W H now st 0.5 0.5 (max 1 (min 6 scale)) dur

/-- window.resetZoom as a board-state transition (board.js lines 658-660). -/
noncomputable def stResetZoom (W H : ℚ) (now : ℝ) (st : BoardState) (dur : ℝ) : BoardState :=
  stAnimateZoomTo W H now st 0.5 0.5 1 dur

/-- bullsDeciderEnd (board.js lines 695-705): deactivate and clear the
session, reset the zoom, redraw. bullsDeciderCancel is defined identically
(lines 736-739). -/
noncomputable def bullsDeciderEnd (W H : ℚ) (now : ℝ) (st : BoardState) : BoardState :=
  redrawAll W H now (stResetZoom W H now
    { st with
      bullsDeciderActive := false
      bullsDeciderOrder := []
      bullsDeciderCurrent := 0
      bullsMarkers := []
      bullsDeciderZoomed := false } 250)

/-- bullsDeciderTempUnzoom (board.js lines 706-713): guard on an active
session, clear the zoomed flag, reset the zoom, redraw. -/
noncomputable def bullsDeciderTempUnzoom (W H : ℚ) (now : ℝ) (st : BoardState) : BoardState :=
  if st.bullsDeciderActive = false then st
  else redrawAll W H now (stResetZoom W H now { st with bullsDeciderZoomed := false } 200)

/-- bullsDeciderTogglePauseZoom (board.js lines 721-735). -/
noncomputable def bullsDeciderTogglePauseZoom (W H : ℚ) (now : ℝ) (st : BoardState) :
    BoardState :=
  if st.bullsDeciderActive = false then st
  else if st.bullsDeciderZoomed then
    redrawAll W H now (stResetZoom W H now { st with bullsDeciderZoomed := false } 220)
  else
    redrawAll W H now (stZoomToBull W H now { st with bullsDeciderZoomed := true } 3 300)

open Classical in
/-- bullsDeciderSetCurrent (board.js lines 674-677): the stored index is
the argument passed through JavaScript's falsy-or (so 0 for 0), with no
clamping; then a redraw. -/
noncomputable def bullsDeciderSetCurrent (W H : ℚ) (now : ℝ) (st : BoardState) (idx : ℤ) :
    BoardState :=
  redrawAll W H now { st with bullsDeciderCurrent := if idx = 0 then 0 else idx }

/-- bullsDeciderAddMarker (board.js lines 678-694): push a decider marker
and redraw; no cap is applied. -/
noncomputable def bullsDeciderAddMarker (W H : ℚ) (now : ℝ) (st : BoardState) (xn yn : ℝ) :
    BoardState :=
  redrawAll W H now
    { st with
      bullsMarkers := st.bullsMarkers ++
        [⟨xn, yn, 0, 0, none, "rgba(32,201,151,0.95)", some now, some 420⟩] }

/-- The index displayed by drawBullsOverlay (board.js lines 557-560):
the stored current index clamped into the participant range. -/
def overlayDisplayIndex (st : BoardState) : ℤ :=
  max 0 (min ((st.bullsDeciderOrder.length : ℤ) - 1) st.bullsDeciderCurrent)

/-- The sound kind chosen by _clickHandler for an in-bounds hit
(board.js lines 870-888). -/
noncomputable def soundTypeFor (deciderActive : Bool) (h : HitResult) : String :=
  if deciderActive then "bulls"
  else if h.sector = 25 ∧ h.multiplier = 2 then "bull"
  else if h.sector = 25 ∧ h.multiplier = 1 then "sbull"
  else if h.multiplier = 3 then "triple"
  else if h.multiplier = 2 then "double"
  else if h.multiplier = 0 then "miss"
  else "normal"

/-- The payload handed to window.onDartHit (board.js lines 922-932). -/
structure HitEvent where
  value : ℤ
  multiplier : ℤ
  label : String
  x : ℝ
  y : ℝ
  px : ℝ
  py : ℝ

/-- The outcome of one click: the new module state, the event that would be
emitted to window.onDartHit, and the sound kind that would be played. -/
structure ClickResult where
  state : BoardState
  event : Option HitEvent
  sound : Option String

open Classical in
/-- The board-mapping part of _clickHandler (board.js lines 814-937): invert
the zoom transform, score the logical point, and on a hit play a sound,
append a marker to the active layer (capping only the official layer at 80,
oldest first) and emit the hit event. -/
noncomputable def boardClick (W H : ℚ) (now : ℝ) (st : BoardState) (pixelX pixelY : ℝ) :
    ClickResult :=
  let sz := computeSizes W H
  let logical := inverseLogical st.zoom W H pixelX pixelY
  match clickScore sz logical.1 logical.2 with
  | none => ⟨st, none, none⟩
  | some hit =>
      let xn := logical.1 / (W : ℝ)
      let yn := logical.2 / (H : ℝ)
      let snd := soundTypeFor st.bullsDeciderActive hit
      let st2 :=
        if st.bullsDeciderActive then
          redrawAll W H now
            { st with
              bullsMarkers := st.bullsMarkers ++
                [⟨xn, yn, hit.sector, hit.multiplier, none,
                  "rgba(32,201,151,0.95)", some now, some 420⟩] }
        else
          let ml := st.markerLayer ++
            [⟨xn, yn, hit.sector, hit.multiplier, some hit.label,
              "rgba(32,201,151,0.95)", some now, some 420⟩]
          let ml2 := if 80 < ml.length then ml.tail else ml
          redrawAll W H now { st with markerLayer := ml2 }
      ⟨st2, some ⟨hit.sector, hit.multiplier, hit.label, xn, yn, logical.1, logical.2⟩,
        some snd⟩

open Classical in
/-- The full _clickHandler (board.js lines 768-938): the overlay buttons are
tested first in screen coordinates and short-circuit the board mapping. -/
noncomputable def clickHandler (W H : ℚ) (now : ℝ) (st : BoardState) (pixelX pixelY : ℝ) :
    ClickResult :=
  match st.overlay with
  | some ov =>
      if rectContains ov.btnZoom pixelX pixelY then
        ⟨if st.bullsDeciderActive then bullsDeciderTogglePauseZoom W H now st
          else stZoomToBull W H now st 3 300, none, none⟩
      else if rectContains ov.btnCancel pixelX pixelY then
        ⟨if st.bullsDeciderActive then bullsDeciderTempUnzoom W H now st
          else bullsDeciderEnd W H now st, none, none⟩
      else boardClick W H now st pixelX pixelY
  | none => boardClick W H now st pixelX pixelY

/-- Iterated bullsDeciderAddMarker, used to exhibit the unbounded growth of
the decider marker layer. -/
noncomputable def addMarkerTimes (W H : ℚ) (now xn yn : ℝ) : ℕ → BoardState → BoardState
  | 0, st => st
  | n + 1, st => bullsDeciderAddMarker W H now (addMarkerTimes W H now xn yn n st) xn yn

/-- The idle zoom state (board.js lines 55-67 initial values). -/
noncomputable def zsIdle : ZoomState :=
  ⟨1, 0.5, 0.5, none, 300, 1, 0.5, 0.5, 1, 0.5, 0.5⟩

/-- A concrete board state with no markers, no zoom, no decider session
and no overlay. -/
noncomputable def stIdle : BoardState :=
  ⟨[], [], zsIdle, false, [], 0, false, none⟩

/-- A concrete board state with an active two-participant decider session
at the idle zoom. -/
noncomputable def stTwoPlayers : BoardState :=
  ⟨[], [], zsIdle, true, [⟨1, "A"⟩, ⟨2, "B"⟩], 0, true, none⟩

/-- A concrete board state with an active one-participant decider session
and the overlay bounds published for a 640-wide canvas. -/
noncomputable def stOverlayActive : BoardState :=
  ⟨[], [], zsIdle, true, [⟨1, "A"⟩], 0, true, some (overlayBoundsFor 640)⟩

/-! ### Helper lemmas -/

lemma computeSizes_outerRadius_pos {W H : ℚ} (hW : 0 < W) (hH : 0 < H) :
    0 < (computeSizes W H).outerRadius := by
  have hmin : 0 < min W H := lt_min hW hH
  have : (computeSizes W H).outerRadius = (min W H / 2) * 0.78 := rfl
  rw [this]
  positivity

open Classical in
lemma ring_chain_eq (bi bo ti to2 di dO oR mr r : ℝ) (sector : ℤ)
    (hbb : bi < bo) (hbt : bo < ti) (htt : ti ≤ to2) (htd : to2 < di)
    (hdd : di ≤ dO) (hdo : dO = oR) (hdm : dO < mr) :
    (if oR < r ∧ r ≤ mr then (⟨0, 0, "OUT"⟩ : HitResult)
     else if r ≤ bi then ⟨25, 2, "BULL"⟩
     else if r ≤ bo then ⟨25, 1, "SBULL"⟩
     else if ti ≤ r ∧ r ≤ to2 then ⟨sector, 3, "T" ++ toString sector⟩
     else if di ≤ r ∧ r ≤ dO then ⟨sector, 2, "D" ++ toString sector⟩
     else ⟨sector, 1, "S" ++ toString sector⟩) =
    (if r ≤ bi then (⟨25, 2, "BULL"⟩ : HitResult)
     else if bi < r ∧ r ≤ bo then ⟨25, 1, "SBULL"⟩
     else if ti ≤ r ∧ r ≤ to2 then ⟨sector, 3, "T" ++ toString sector⟩
     else if di ≤ r ∧ r ≤ dO then ⟨sector, 2, "D" ++ toString sector⟩
     else if oR < r ∧ r ≤ mr then ⟨0, 0, "OUT"⟩
     else ⟨sector, 1, "S" ++ toString sector⟩) := by
  rcases le_or_lt r bi with h1 | h1
  · have n1 : ¬(oR < r ∧ r ≤ mr) := by rintro ⟨a, b⟩; linarith
    rw [if_neg n1, if_pos h1, if_pos h1]
  · rcases le_or_lt r bo with h2 | h2
    · have n1 : ¬(oR < r ∧ r ≤ mr) := by rintro ⟨a, b⟩; linarith
      have n2 : ¬(r ≤ bi) := by intro h; linarith
      rw [if_neg n1, if_neg n2, if_pos h2, if_neg n2, if_pos (And.intro h1 h2)]
    · rcases lt_or_le r ti with h3 | h3
      · have n1 : ¬(oR < r ∧ r ≤ mr) := by rintro ⟨a, b⟩; linarith
        have n2 : ¬(r ≤ bi) := by intro h; linarith
        have n3 : ¬(r ≤ bo) := by intro h; linarith
        have n4 : ¬(bi < r ∧ r ≤ bo) := by rintro ⟨a, b⟩; linarith
        have n5 : ¬(ti ≤ r ∧ r ≤ to2) := by rintro ⟨a, b⟩; linarith
        have n6 : ¬(di ≤ r ∧ r ≤ dO) := by rintro ⟨a, b⟩; linarith
        rw [if_neg n1, if_neg n2, if_neg n3, if_neg n5, if_neg n6,
          if_neg n2, if_neg n4, if_neg n5, if_neg n6, if_neg n1]
      · rcases le_or_lt r to2 with h4 | h4
        · have n1 : ¬(oR < r ∧ r ≤ mr) := by rintro ⟨a, b⟩; linarith
          have n2 : ¬(r ≤ bi) := by intro h; linarith
          have n3 : ¬(r ≤ bo) := by intro h; linarith
          have n4 : ¬(bi < r ∧ r ≤ bo) := by rintro ⟨a, b⟩; linarith
          rw [if_neg n1, if_neg n2, if_neg n3, if_pos (And.intro h3 h4),
            if_neg n2, if_neg n4, if_pos (And.intro h3 h4)]
        · rcases lt_or_le r di with h5 | h5
          · have n1 : ¬(oR < r ∧ r ≤ mr) := by rintro ⟨a, b⟩; linarith
            have n2 : ¬(r ≤ bi) := by intro h; linarith
            have n3 : ¬(r ≤ bo) := by intro h; linarith
            have n4 : ¬(bi < r ∧ r ≤ bo) := by rintro ⟨a, b⟩; linarith
            have n5 : ¬(ti ≤ r ∧ r ≤ to2) := by rintro ⟨a, b⟩; linarith
            have n6 : ¬(di ≤ r ∧ r ≤ dO) := by rintro ⟨a, b⟩; linarith
            rw [if_neg n1, if_neg n2, if_neg n3, if_neg n5, if_neg n6,
              if_neg n2, if_neg n4, if_neg n5, if_neg n6, if_neg n1]
          · rcases le_or_lt r dO with h6 | h6
            · have n1 : ¬(oR < r ∧ r ≤ mr) := by rintro ⟨a, b⟩; linarith
              have n2 : ¬(r ≤ bi) := by intro h; linarith
              have n3 : ¬(r ≤ bo) := by intro h; linarith
              have n4 : ¬(bi < r ∧ r ≤ bo) := by rintro ⟨a, b⟩; linarith
              have n5 : ¬(ti ≤ r ∧ r ≤ to2) := by rintro ⟨a, b⟩; linarith
              rw [if_neg n1, if_neg n2, if_neg n3, if_neg n5, if_pos (And.intro h5 h6),
                if_neg n2, if_neg n4, if_neg n5, if_pos (And.intro h5 h6)]
            · rcases le_or_lt r mr with h7 | h7
              · have p1 : oR < r ∧ r ≤ mr := And.intro (hdo ▸ h6) h7
                have n2 : ¬(r ≤ bi) := by intro h; linarith
                have n4 : ¬(bi < r ∧ r ≤ bo) := by rintro ⟨a, b⟩; linarith
                have n5 : ¬(ti ≤ r ∧ r ≤ to2) := by rintro ⟨a, b⟩; linarith
                have n6 : ¬(di ≤ r ∧ r ≤ dO) := by rintro ⟨a, b⟩; linarith
                rw [if_pos p1, if_neg n2, if_neg n4, if_neg n5, if_neg n6, if_pos p1]
              · have n1 : ¬(oR < r ∧ r ≤ mr) := by rintro ⟨a, b⟩; linarith
                have n2 : ¬(r ≤ bi) := by intro h; linarith
                have n3 : ¬(r ≤ bo) := by intro h; linarith
                have n4 : ¬(bi < r ∧ r ≤ bo) := by rintro ⟨a, b⟩; linarith
                have n5 : ¬(ti ≤ r ∧ r ≤ to2) := by rintro ⟨a, b⟩; linarith
                have n6 : ¬(di ≤ r ∧ r ≤ dO) := by rintro ⟨a, b⟩; linarith
                rw [if_neg n1, if_neg n2, if_neg n3, if_neg n5, if_neg n6,
                  if_neg n2, if_neg n4, if_neg n5, if_neg n6, if_neg n1]

lemma ring_order_eq {W H : ℚ} (hW : 0 < W) (hH : 0 < H) (r : ℝ) (sector : ℤ) :
    ringCode (computeSizes W H) r sector = ringSpec (computeSizes W H) r sector := by
  have hRq : 0 < (computeSizes W H).outerRadius := computeSizes_outerRadius_pos hW hH
  have e1 : (computeSizes W H).bullInner = (computeSizes W H).outerRadius * 0.03 := rfl
  have e2 : (computeSizes W H).bullOuter = (computeSizes W H).outerRadius * 0.06 := rfl
  have e3 : (computeSizes W H).tripleInner = (computeSizes W H).outerRadius * 0.58 := rfl
  have e4 : (computeSizes W H).tripleOuter = (computeSizes W H).outerRadius * 0.66 := rfl
  have e5 : (computeSizes W H).doubleInner = (computeSizes W H).outerRadius * 0.88 := rfl
  have e6 : (computeSizes W H).doubleOuter = (computeSizes W H).outerRadius := rfl
  have e7 : (computeSizes W H).OUTER_MISS_RING = (computeSizes W H).outerRadius * 1.35 := rfl
  have q1 : (computeSizes W H).bullInner < (computeSizes W H).bullOuter := by
    rw [e1, e2]; nlinarith
  have q2 : (computeSizes W H).bullOuter < (computeSizes W H).tripleInner := by
    rw [e2, e3]; nlinarith
  have q3 : (computeSizes W H).tripleInner ≤ (computeSizes W H).tripleOuter := by
    rw [e3, e4]; nlinarith
  have q4 : (computeSizes W H).tripleOuter < (computeSizes W H).doubleInner := by
    rw [e4, e5]; nlinarith
  have q5 : (computeSizes W H).doubleInner ≤ (computeSizes W H).doubleOuter := by
    rw [e5, e6]; nlinarith
  have q7 : (computeSizes W H).doubleOuter < (computeSizes W H).OUTER_MISS_RING := by
    rw [e6, e7]; nlinarith
  exact ring_chain_eq _ _ _ _ _ _ _ _ r sector
    (by exact_mod_cast q1) (by exact_mod_cast q2) (by exact_mod_cast q3)
    (by exact_mod_cast q4) (by exact_mod_cast q5) rfl (by exact_mod_cast q7)

/-! ### C1 -/

/-- C1: for every click at logical position on a board with positive
dimensions, the scoring result of _clickHandler (no hit beyond the miss
ring, otherwise the code's OUT-first radius chain with the SECTOR_ORDER
lookup) coincides with the first matching band of the spec's ordered
policy (bull, outer bull, triple, double, OUT, single fallback). -/
theorem C1_click_policy_matches_spec (W H : ℚ) (hW : 0 < W) (hH : 0 < H) (px py : ℝ) :
    clickScore (computeSizes W H) px py = specScore (computeSizes W H) px py := by
  unfold clickScore specScore
  rcases lt_or_le ((computeSizes W H).OUTER_MISS_RING : ℝ)
      (radiusAt (computeSizes W H) px py) with h | h
  · rw [if_pos h, if_pos h]
  · rw [if_neg (not_lt.mpr h), if_neg (not_lt.mpr h), ring_order_eq hW hH]

/-- Witness for C1 at the spec's concrete scenario: a 640 by 640 board and
a click 200 pixels above the center. -/
theorem C1_click_policy_matches_spec_witness :
    clickScore (computeSizes 640 640) 320 120 = specScore (computeSizes 640 640) 320 120 :=
  C1_click_policy_matches_spec 640 640 (by norm_num) (by norm_num) 320 120

/-! ### C2 -/

/-- C2: composing the forward zoom transform with the click handler's
inverse mapping is the identity on logical points whenever the scale is at
least 1 (including exactly 1, where both sides skip the computation), and
consequently the scoring result at the recovered point is the one at the
original logical point. -/
theorem C2_zoom_roundtrip (W H : ℚ) (z : ZoomState) (p : ℝ × ℝ) (hscale : 1 ≤ z.scale) :
    inverseLogical z W H (applyZoomTransformPoint z W H p).1 (applyZoomTransformPoint z W H p).2
      = p ∧
    clickScore (computeSizes W H)
        (inverseLogical z W H (applyZoomTransformPoint z W H p).1
          (applyZoomTransformPoint z W H p).2).1
        (inverseLogical z W H (applyZoomTransformPoint z W H p).1
          (applyZoomTransformPoint z W H p).2).2
      = clickScore (computeSizes W H) p.1 p.2 := by
  have hmain : inverseLogical z W H (applyZoomTransformPoint z W H p).1
      (applyZoomTransformPoint z W H p).2 = p := by
    by_cases hs : z.scale = 1
    · have hfwd : applyZoomTransformPoint z W H p = p := by
        unfold applyZoomTransformPoint; rw [if_pos hs]
      have hnc : ¬(z.scale ≠ 0 ∧ z.scale ≠ 1) := fun hc => hc.2 hs
      rw [hfwd]
      unfold inverseLogical
      rw [if_neg hnc]
    · have hs0 : z.scale ≠ 0 := by
        intro h0
        rw [h0] at hscale
        linarith
      unfold applyZoomTransformPoint inverseLogical
      rw [if_neg hs, if_pos (And.intro hs0 hs)]
      simp only
      refine Prod.ext ?_ ?_ <;> · simp only; field_simp
  exact ⟨hmain, by rw [hmain]⟩

/-- Witness for C2 at scale 3 with center at the middle of a 640 by 640
board and the logical point 200 pixels above the center. -/
theorem C2_zoom_roundtrip_witness :
    inverseLogical ⟨3, 0.5, 0.5, none, 300, 1, 0.5, 0.5, 1, 0.5, 0.5⟩ 640 640
        (applyZoomTransformPoint ⟨3, 0.5, 0.5, none, 300, 1, 0.5, 0.5, 1, 0.5, 0.5⟩ 640 640
          (320, 120)).1
        (applyZoomTransformPoint ⟨3, 0.5, 0.5, none, 300, 1, 0.5, 0.5, 1, 0.5, 0.5⟩ 640 640
          (320, 120)).2
      = (320, 120) ∧
    clickScore (computeSizes 640 640)
        (inverseLogical ⟨3, 0.5, 0.5, none, 300, 1, 0.5, 0.5, 1, 0.5, 0.5⟩ 640 640
          (applyZoomTransformPoint ⟨3, 0.5, 0.5, none, 300, 1, 0.5, 0.5, 1, 0.5, 0.5⟩ 640 640
            (320, 120)).1
          (applyZoomTransformPoint ⟨3, 0.5, 0.5, none, 300, 1, 0.5, 0.5, 1, 0.5, 0.5⟩ 640 640
            (320, 120)).2).1
        (inverseLogical ⟨3, 0.5, 0.5, none, 300, 1, 0.5, 0.5, 1, 0.5, 0.5⟩ 640 640
          (applyZoomTransformPoint ⟨3, 0.5, 0.5, none, 300, 1, 0.5, 0.5, 1, 0.5, 0.5⟩ 640 640
            (320, 120)).1
          (applyZoomTransformPoint ⟨3, 0.5, 0.5, none, 300, 1, 0.5, 0.5, 1, 0.5, 0.5⟩ 640 640
            (320, 120)).2).2
      = clickScore (computeSizes 640 640) 320 120 :=
  C2_zoom_roundtrip 640 640 ⟨3, 0.5, 0.5, none, 300, 1, 0.5, 0.5, 1, 0.5, 0.5⟩ (320, 120)
    (by norm_num)

/-! ### C8 -/

open Classical in
lemma animateZoomTo_targetScale (zs : ZoomState) (cX cY tS dur now : ℝ) :
    (animateZoomTo zs cX cY tS dur now).targetScale = max 1 (if tS = 0 then 1 else tS) := by
  unfold animateZoomTo
  by_cases h : max 0 dur = 0 <;> simp [h]

open Classical in
lemma animateZoomTo_of_pos_duration (zs : ZoomState) (cX cY tS dur now : ℝ) (hd : 0 < dur) :
    animateZoomTo zs cX cY tS dur now =
      { scale := zs.scale
        centerX := zs.centerX
        centerY := zs.centerY
        animStart := some now
        animDuration := dur
        animFromScale := zs.scale
        animFromCX := zs.centerX
        animFromCY := zs.centerY
        targetScale := max 1 (if tS = 0 then 1 else tS)
        targetCX := max 0 (min 1 cX)
        targetCY := max 0 (min 1 cY) } := by
  have hmax : max 0 dur = dur := max_eq_right hd.le
  unfold animateZoomTo
  rw [hmax, if_neg hd.ne']

/-- C8: retargeting a zoom mid-flight captures the interpolated scale and
center of the prior animation as the new animation's from-state, so the
transform evaluated at the retargeting instant equals the prior animation's
interpolated value there (cubic ease-out of the from/target record): no
discontinuity in scale or center. -/
theorem C8_retarget_continuous (zs : ZoomState) (t0 t1 cX cY tS dur : ℝ)
    (hin : zs.animStart = some t0) (hdur : 0 < zs.animDuration)
    (h01 : t0 ≤ t1) (h1d : t1 ≤ t0 + zs.animDuration) (hd : 0 < dur) :
    (stepRun (animateZoomTo (stepRun zs t1) cX cY tS dur t1) t1).scale
        = (stepRun zs t1).scale ∧
    (stepRun (animateZoomTo (stepRun zs t1) cX cY tS dur t1) t1).centerX
        = (stepRun zs t1).centerX ∧
    (stepRun (animateZoomTo (stepRun zs t1) cX cY tS dur t1) t1).centerY
        = (stepRun zs t1).centerY ∧
    (animateZoomTo (stepRun zs t1) cX cY tS dur t1).animFromScale = (stepRun zs t1).scale ∧
    (stepRun zs t1).scale = zs.animFromScale + (zs.targetScale - zs.animFromScale) *
        (1 - (1 - (t1 - t0) / zs.animDuration) ^ 3) := by
  have hrw : animateZoomTo (stepRun zs t1) cX cY tS dur t1 =
      { scale := (stepRun zs t1).scale
        centerX := (stepRun zs t1).centerX
        centerY := (stepRun zs t1).centerY
        animStart := some t1
        animDuration := dur
        animFromScale := (stepRun zs t1).scale
        animFromCX := (stepRun zs t1).centerX
        animFromCY := (stepRun zs t1).centerY
        targetScale := max 1 (if tS = 0 then 1 else tS)
        targetCX := max 0 (min 1 cX)
        targetCY := max 0 (min 1 cY) } := animateZoomTo_of_pos_duration _ _ _ _ _ _ hd
  have hstep2 : ∀ q : ZoomState, q.animStart = some t1 →
      (stepRun q t1).scale = q.animFromScale ∧
      (stepRun q t1).centerX = q.animFromCX ∧ (stepRun q t1).centerY = q.animFromCY := by
    intro q hq
    unfold stepRun
    rw [hq]
    simp only [sub_self, zero_div]
    have hmin : min (1 : ℝ) 0 = 0 := min_eq_right zero_le_one
    rw [hmin]
    norm_num
  have h2 := hstep2 (animateZoomTo (stepRun zs t1) cX cY tS dur t1) (by rw [hrw])
  have hfrac : (t1 - t0) / zs.animDuration ≤ 1 := by
    rw [div_le_one hdur]
    linarith
  have hmin1 : min 1 ((t1 - t0) / zs.animDuration) = (t1 - t0) / zs.animDuration :=
    min_eq_right hfrac
  have hs1 : (stepRun zs t1).scale = zs.animFromScale + (zs.targetScale - zs.animFromScale) *
      (1 - (1 - (t1 - t0) / zs.animDuration) ^ 3) := by
    unfold stepRun
    rw [hin]
    simp only [hmin1]
  refine ⟨?_, ?_, ?_, ?_, hs1⟩
  · rw [h2.1, hrw]
  · rw [h2.2.1, hrw]
  · rw [h2.2.2, hrw]
  · rw [hrw]

/-- Witness for C8: a concrete animation from scale 1 to 3 over 100ms,
retargeted at its halfway instant 50. -/
theorem C8_retarget_continuous_witness :
    (stepRun (animateZoomTo
        (stepRun ⟨1.5, 0.5, 0.5, some 0, 100, 1, 0.5, 0.5, 3, 0.5, 0.5⟩ 50) 0.5 0.5 5 200 50)
        50).scale
      = (stepRun ⟨1.5, 0.5, 0.5, some 0, 100, 1, 0.5, 0.5, 3, 0.5, 0.5⟩ 50).scale ∧
    (stepRun (animateZoomTo
        (stepRun ⟨1.5, 0.5, 0.5, some 0, 100, 1, 0.5, 0.5, 3, 0.5, 0.5⟩ 50) 0.5 0.5 5 200 50)
        50).centerX
      = (stepRun ⟨1.5, 0.5, 0.5, some 0, 100, 1, 0.5, 0.5, 3, 0.5, 0.5⟩ 50).centerX ∧
    (stepRun (animateZoomTo
        (stepRun ⟨1.5, 0.5, 0.5, some 0, 100, 1, 0.5, 0.5, 3, 0.5, 0.5⟩ 50) 0.5 0.5 5 200 50)
        50).centerY
      = (stepRun ⟨1.5, 0.5, 0.5, some 0, 100, 1, 0.5, 0.5, 3, 0.5, 0.5⟩ 50).centerY ∧
    (animateZoomTo (stepRun ⟨1.5, 0.5, 0.5, some 0, 100, 1, 0.5, 0.5, 3, 0.5, 0.5⟩ 50)
        0.5 0.5 5 200 50).animFromScale
      = (stepRun ⟨1.5, 0.5, 0.5, some 0, 100, 1, 0.5, 0.5, 3, 0.5, 0.5⟩ 50).scale ∧
    (stepRun ⟨1.5, 0.5, 0.5, some 0, 100, 1, 0.5, 0.5, 3, 0.5, 0.5⟩ 50).scale
      = 1 + (3 - 1) * (1 - (1 - (50 - 0) / 100) ^ 3) :=
  C8_retarget_continuous ⟨1.5, 0.5, 0.5, some 0, 100, 1, 0.5, 0.5, 3, 0.5, 0.5⟩ 0 50 0.5 0.5 5 200
    rfl (by norm_num) (by norm_num) (by norm_num) (by norm_num)

/-! ### C10 -/

/-- C10: zoomToBull clamps the requested scale into the closed interval
from 1 to 6 before starting the animation, so the target scale it installs
never exceeds 6, while the general zoomTo command installs an unclamped
scale of 10 verbatim. -/
theorem C10_zoomToBull_clamp (zs : ZoomState) (scale dur now : ℝ) :
    1 ≤ (zoomToBullZS zs scale dur now).targetScale ∧
    (zoomToBullZS zs scale dur now).targetScale ≤ 6 ∧
    ∀ zs2 : ZoomState, ∀ cX cY dur2 now2 : ℝ,
      (zoomToZS zs2 cX cY 10 dur2 now2).targetScale = 10 := by
  have hv : (1 : ℝ) ≤ max 1 (min 6 scale) := le_max_left _ _
  have hv0 : max 1 (min 6 scale) ≠ 0 := by positivity
  refine ⟨?_, ?_, ?_⟩
  · unfold zoomToBullZS
    rw [animateZoomTo_targetScale, if_neg hv0]
    exact le_max_left _ _
  · unfold zoomToBullZS
    rw [animateZoomTo_targetScale, if_neg hv0]
    exact max_le (by norm_num) (max_le (by norm_num) (min_le_left _ _))
  · intro zs2 cX cY dur2 now2
    unfold zoomToZS
    rw [animateZoomTo_targetScale]
    norm_num

/-! ### State-projection helper lemmas -/

@[simp] lemma redrawAll_bullsDeciderZoomed (W H : ℚ) (now : ℝ) (st : BoardState) :
    (redrawAll W H now st).bullsDeciderZoomed = st.bullsDeciderZoomed := rfl

@[simp] lemma redrawAll_bullsDeciderCurrent (W H : ℚ) (now : ℝ) (st : BoardState) :
    (redrawAll W H now st).bullsDeciderCurrent = st.bullsDeciderCurrent := rfl

@[simp] lemma redrawAll_bullsDeciderActive (W H : ℚ) (now : ℝ) (st : BoardState) :
    (redrawAll W H now st).bullsDeciderActive = st.bullsDeciderActive := rfl

@[simp] lemma redrawAll_markerLayer_length (W H : ℚ) (now : ℝ) (st : BoardState) :
    (redrawAll W H now st).markerLayer.length = st.markerLayer.length := by
  unfold redrawAll
  simp

@[simp] lemma redrawAll_bullsMarkers_length (W H : ℚ) (now : ℝ) (st : BoardState) :
    (redrawAll W H now st).bullsMarkers.length = st.bullsMarkers.length := by
  unfold redrawAll
  simp

open Classical in
@[simp] lemma stAnimateZoomTo_bullsDeciderZoomed (W H : ℚ) (now : ℝ) (st : BoardState)
    (cX cY tS dur : ℝ) :
    (stAnimateZoomTo W H now st cX cY tS dur).bullsDeciderZoomed = st.bullsDeciderZoomed := by
  unfold stAnimateZoomTo
  by_cases h : max 0 dur = 0 <;> simp [h]

open Classical in
@[simp] lemma stAnimateZoomTo_markerLayer_length (W H : ℚ) (now : ℝ) (st : BoardState)
    (cX cY tS dur : ℝ) :
    (stAnimateZoomTo W H now st cX cY tS dur).markerLayer.length = st.markerLayer.length := by
  unfold stAnimateZoomTo
  by_cases h : max 0 dur = 0 <;> simp [h]

lemma clickScore_eq_none (sz : Sizes) (lx ly : ℝ)
    (hr : (sz.OUTER_MISS_RING : ℝ) < radiusAt sz lx ly) :
    clickScore sz lx ly = none := by
  unfold clickScore
  rw [if_pos hr]

lemma boardClick_miss (W H : ℚ) (now : ℝ) (st : BoardState) (px py : ℝ)
    (hr : ((computeSizes W H).OUTER_MISS_RING : ℝ) <
      radiusAt (computeSizes W H) (inverseLogical st.zoom W H px py).1
        (inverseLogical st.zoom W H px py).2) :
    boardClick W H now st px py = ⟨st, none, none⟩ := by
  unfold boardClick
  simp only [clickScore_eq_none _ _ _ hr]

/-! ### C3 -/

/-- C3 (amended): a click whose logical radius exceeds the miss ring has no
effect at all, provided it does not land on one of the visible decider
overlay buttons (which are tested first in screen coordinates and
short-circuit the board mapping): the state is unchanged, no event is
emitted and no sound is requested. -/
theorem C3_amended_miss_ignored (W H : ℚ) (now : ℝ) (st : BoardState) (px py : ℝ)
    (hov : ∀ ov, st.overlay = some ov →
      ¬rectContains ov.btnZoom px py ∧ ¬rectContains ov.btnCancel px py)
    (hr : ((computeSizes W H).OUTER_MISS_RING : ℝ) <
      radiusAt (computeSizes W H) (inverseLogical st.zoom W H px py).1
        (inverseLogical st.zoom W H px py).2) :
    clickHandler W H now st px py = ⟨st, none, none⟩ := by
  unfold clickHandler
  rcases hst : st.overlay with _ | ov
  · exact boardClick_miss W H now st px py hr
  · rcases hov ov hst with ⟨hz, hc⟩
    simp only []
    rw [if_neg hz, if_neg hc]
    exact boardClick_miss W H now st px py hr

/-- Witness for C3 (amended): a 640 by 640 board with no overlay, clicked
at the top-left corner, whose radius exceeds the miss ring. -/
theorem C3_amended_miss_ignored_witness :
    clickHandler 640 640 0 stIdle 0 0 = ⟨stIdle, none, none⟩ :=
  C3_amended_miss_ignored 640 640 0 stIdle 0 0
    (by intro ov hov; cases hov)
    (by
      have hlog : inverseLogical stIdle.zoom 640 640 0 0 = (0, 0) := by
        unfold inverseLogical
        rw [if_neg]
        rintro ⟨a, b⟩
        exact b rfl
      rw [hlog]
      unfold radiusAt
      have hcx : ((computeSizes 640 640).cx : ℝ) = 320 := by norm_num [computeSizes]
      have hcy : ((computeSizes 640 640).cy : ℝ) = 320 := by norm_num [computeSizes]
      have hm : ((computeSizes 640 640).OUTER_MISS_RING : ℝ) = 336.96 := by
        norm_num [computeSizes]
      rw [hcx, hcy, hm]
      have harg : ((0 : ℝ) - 320) * ((0 : ℝ) - 320) + ((0 : ℝ) - 320) * ((0 : ℝ) - 320)
          = 204800 := by norm_num
      rw [harg]
      rw [show (204800 : ℝ) = (204800 : ℝ) from rfl]
      have := (Real.lt_sqrt (by norm_num : (0 : ℝ) ≤ 336.96)).mpr
        (by norm_num : (336.96 : ℝ) ^ 2 < 204800)
      exact this)

/-- Counterexample to C3 as stated: with the decider overlay visible, a
click at screen position (618, 58) on a 640 by 640 board lands inside the
Cancel button although its logical radius exceeds the miss ring, and the
handler does mutate state (the zoomed flag is cleared by the temporary
unzoom). -/
theorem C3_counterexample :
    ((computeSizes 640 640).OUTER_MISS_RING : ℝ) <
      radiusAt (computeSizes 640 640)
        (inverseLogical stOverlayActive.zoom 640 640 618 58).1
        (inverseLogical stOverlayActive.zoom 640 640 618 58).2 ∧
    stOverlayActive.bullsDeciderZoomed = true ∧
    (clickHandler 640 640 0 stOverlayActive 618 58).state.bullsDeciderZoomed = false := by
  have hlog : inverseLogical stOverlayActive.zoom 640 640 618 58 = (618, 58) := by
    unfold inverseLogical
    rw [if_neg]
    rintro ⟨a, b⟩
    exact b rfl
  refine ⟨?_, rfl, ?_⟩
  · rw [hlog]
    unfold radiusAt
    have hcx : ((computeSizes 640 640).cx : ℝ) = 320 := by norm_num [computeSizes]
    have hcy : ((computeSizes 640 640).cy : ℝ) = 320 := by norm_num [computeSizes]
    have hm : ((computeSizes 640 640).OUTER_MISS_RING : ℝ) = 336.96 := by
      norm_num [computeSizes]
    rw [hcx, hcy, hm]
    have harg : ((618 : ℝ) - 320) * ((618 : ℝ) - 320) + ((58 : ℝ) - 320) * ((58 : ℝ) - 320)
        = 157448 := by norm_num
    rw [harg]
    exact (Real.lt_sqrt (by norm_num : (0 : ℝ) ≤ 336.96)).mpr
      (by norm_num : (336.96 : ℝ) ^ 2 < 157448)
  · have hnz : ¬rectContains (overlayBoundsFor 640).btnZoom 618 58 := by
      norm_num [rectContains, overlayBoundsFor]
    have hc : rectContains (overlayBoundsFor 640).btnCancel 618 58 := by
      norm_num [rectContains, overlayBoundsFor]
    have hover : stOverlayActive.overlay = some (overlayBoundsFor 640) := rfl
    unfold clickHandler
    rw [hover]
    simp only []
    rw [if_neg hnz, if_pos hc]
    have hact : stOverlayActive.bullsDeciderActive = true := rfl
    simp only [hact, if_pos]
    unfold bullsDeciderTempUnzoom
    rw [if_neg (by rw [hact]; decide)]
    simp [stResetZoom]

/-! ### C5 -/

/-- C5 (amended): bullsDeciderSetCurrent stores its integer argument
unclamped (the source applies only JavaScript's falsy-or, the identity on
integers); the clamp into the participant range happens only at display
time in drawBullsOverlay, whose displayed index always lies between 0 and
the participant count minus one when the list is non-empty. -/
theorem C5_amended_setCurrent_unclamped (W H : ℚ) (now : ℝ) (st : BoardState) (idx : ℤ) :
    (bullsDeciderSetCurrent W H now st idx).bullsDeciderCurrent = idx ∧
    (st.bullsDeciderOrder ≠ [] →
      0 ≤ overlayDisplayIndex st ∧
      overlayDisplayIndex st ≤ (st.bullsDeciderOrder.length : ℤ) - 1) := by
  constructor
  · unfold bullsDeciderSetCurrent
    rw [redrawAll_bullsDeciderCurrent]
    by_cases h : idx = 0 <;> simp [h]
  · intro hne
    refine ⟨le_max_left 0 _, ?_⟩
    unfold overlayDisplayIndex
    have hlen : 1 ≤ st.bullsDeciderOrder.length := List.length_pos.mpr hne
    have hlen' : (1 : ℤ) ≤ (st.bullsDeciderOrder.length : ℤ) := by exact_mod_cast hlen
    exact max_le (by linarith) (min_le_left _ _)

/-- Witness for C5 (amended): a two-participant session with argument 7. -/
theorem C5_amended_setCurrent_unclamped_witness :
    (bullsDeciderSetCurrent 640 640 0 stTwoPlayers 7).bullsDeciderCurrent = 7 ∧
    (0 ≤ overlayDisplayIndex stTwoPlayers ∧
      overlayDisplayIndex stTwoPlayers ≤ (stTwoPlayers.bullsDeciderOrder.length : ℤ) - 1) :=
  ⟨(C5_amended_setCurrent_unclamped 640 640 0 stTwoPlayers 7).1,
   (C5_amended_setCurrent_unclamped 640 640 0 stTwoPlayers 7).2
     (by simp [stTwoPlayers])⟩

/-- Counterexample to C5 as stated: with two participants,
bullsDeciderSetCurrent 5 stores index 5, which is outside the range from 0
to participants.length minus 1. -/
theorem C5_counterexample :
    (bullsDeciderSetCurrent 640 640 0 stTwoPlayers 5).bullsDeciderCurrent = 5 ∧
    stTwoPlayers.bullsDeciderOrder.length = 2 ∧
    ¬((bullsDeciderSetCurrent 640 640 0 stTwoPlayers 5).bullsDeciderCurrent ≤
        (stTwoPlayers.bullsDeciderOrder.length : ℤ) - 1) := by
  have hcur : (bullsDeciderSetCurrent 640 640 0 stTwoPlayers 5).bullsDeciderCurrent = 5 := by
    unfold bullsDeciderSetCurrent
    rw [redrawAll_bullsDeciderCurrent]
    norm_num
  refine ⟨hcur, rfl, ?_⟩
  rw [hcur]
  norm_num [stTwoPlayers]

/-! ### C6 -/

lemma radiusAt_degenerate_pos (a b : ℝ) (hab : ¬(a = 0 ∧ b = 0)) :
    0 < radiusAt (computeSizes 0 0) a b := by
  unfold radiusAt
  have hcx : ((computeSizes 0 0).cx : ℝ) = 0 := by norm_num [computeSizes]
  have hcy : ((computeSizes 0 0).cy : ℝ) = 0 := by norm_num [computeSizes]
  rw [hcx, hcy]
  simp only [sub_zero]
  apply Real.sqrt_pos.mpr
  rcases not_and_or.mp hab with h | h
  · exact add_pos_of_pos_of_nonneg (mul_self_pos.mpr h) (mul_self_nonneg b)
  · exact add_pos_of_nonneg_of_pos (mul_self_nonneg a) (mul_self_pos.mpr h)

lemma clickScore_degenerate_origin :
    clickScore (computeSizes 0 0) 0 0 = some ⟨25, 2, "BULL"⟩ := by
  have hrad : radiusAt (computeSizes 0 0) 0 0 = 0 := by
    unfold radiusAt
    have hcx : ((computeSizes 0 0).cx : ℝ) = 0 := by norm_num [computeSizes]
    have hcy : ((computeSizes 0 0).cy : ℝ) = 0 := by norm_num [computeSizes]
    rw [hcx, hcy]
    norm_num [Real.sqrt_zero]
  have hmiss0 : ((computeSizes 0 0).OUTER_MISS_RING : ℝ) = 0 := by norm_num [computeSizes]
  have hoR : ((computeSizes 0 0).outerRadius : ℝ) = 0 := by norm_num [computeSizes]
  have hbi : (0 : ℝ) ≤ ((computeSizes 0 0).bullInner : ℝ) := by norm_num [computeSizes]
  unfold clickScore
  rw [hrad, hmiss0, if_neg (lt_irrefl 0)]
  congr 1
  unfold ringCode
  rw [if_neg (by rintro ⟨ha, _⟩; rw [hoR] at ha; exact lt_irrefl 0 ha), if_pos hbi]

/-- C6 (amended): with a zero-sized drawing surface every geometric radius
is zero, so any click at a screen position other than the exact corner
(0,0) lies beyond the (zero) miss ring and is fully ignored; a click at
exactly (0,0) however is classified as a BULL hit and the handler computes
the normalized coordinates by dividing by the zero canvas width and height
(NaN in JavaScript; 0 in this real-valued model), emitting the event. -/
theorem C6_amended_degenerate_surface :
    (∀ (now : ℝ) (st : BoardState) (px py : ℝ),
      st.overlay = none → 1 ≤ st.zoom.scale → ¬(px = 0 ∧ py = 0) →
      clickHandler 0 0 now st px py = ⟨st, none, none⟩) ∧
    (∀ (now : ℝ) (st : BoardState),
      st.overlay = none → st.zoom.scale = 1 →
      (clickHandler 0 0 now st 0 0).event = some ⟨25, 2, "BULL", 0, 0, 0, 0⟩) := by
  constructor
  · intro now st px py hov hs hne
    have hmiss0 : ((computeSizes 0 0).OUTER_MISS_RING : ℝ) = 0 := by norm_num [computeSizes]
    have hs0 : st.zoom.scale ≠ 0 := by intro h0; rw [h0] at hs; linarith
    have hr : ((computeSizes 0 0).OUTER_MISS_RING : ℝ) <
        radiusAt (computeSizes 0 0) (inverseLogical st.zoom 0 0 px py).1
          (inverseLogical st.zoom 0 0 px py).2 := by
      rw [hmiss0]
      apply radiusAt_degenerate_pos
      by_cases hcs : st.zoom.scale ≠ 0 ∧ st.zoom.scale ≠ 1
      · have hlog : inverseLogical st.zoom 0 0 px py =
            (px / st.zoom.scale, py / st.zoom.scale) := by
          unfold inverseLogical
          rw [if_pos hcs]
          norm_num
        rw [hlog]
        rintro ⟨h1, h2⟩
        exact hne ⟨by
          rcases div_eq_zero_iff.mp h1 with h | h
          · exact h
          · exact absurd h hs0, by
          rcases div_eq_zero_iff.mp h2 with h | h
          · exact h
          · exact absurd h hs0⟩
      · have hlog : inverseLogical st.zoom 0 0 px py = (px, py) := by
          unfold inverseLogical
          rw [if_neg hcs]
        rw [hlog]
        exact hne
    unfold clickHandler
    rw [hov]
    exact boardClick_miss 0 0 now st px py hr
  · intro now st hov hs1
    have hlog : inverseLogical st.zoom 0 0 0 0 = ((0 : ℝ), (0 : ℝ)) := by
      unfold inverseLogical
      rw [if_neg (fun hc => hc.2 hs1)]
    unfold clickHandler
    rw [hov]
    simp only [boardClick, hlog, clickScore_degenerate_origin]
    norm_num

/-- Witness for C6 (amended): the idle state on a zero-sized surface; a
click at (5, 0) is ignored and a click at (0, 0) scores a BULL event. -/
theorem C6_amended_degenerate_surface_witness :
    clickHandler 0 0 0 stIdle 5 0 = ⟨stIdle, none, none⟩ ∧
    (clickHandler 0 0 0 stIdle 0 0).event = some ⟨25, 2, "BULL", 0, 0, 0, 0⟩ :=
  ⟨C6_amended_degenerate_surface.1 0 stIdle 5 0 rfl (by norm_num [stIdle, zsIdle])
      (by intro h; exact absurd h.1 (by norm_num)),
   C6_amended_degenerate_surface.2 0 stIdle rfl rfl⟩

/-- Counterexample to C6 as stated: on a zero-sized surface the click
handler is not a no-op — a click at exactly (0, 0) appends a marker to the
primary layer (its normalized coordinates computed by dividing by the zero
width) and emits a hit event. -/
theorem C6_counterexample :
    (clickHandler 0 0 0 stIdle 0 0).state.markerLayer.length = 1 ∧
    stIdle.markerLayer.length = 0 ∧
    (clickHandler 0 0 0 stIdle 0 0).event ≠ none := by
  have hlog : inverseLogical stIdle.zoom 0 0 0 0 = ((0 : ℝ), (0 : ℝ)) := by
    unfold inverseLogical
    rw [if_neg]
    rintro ⟨a, b⟩
    exact b rfl
  have hov : stIdle.overlay = none := rfl
  have hact : stIdle.bullsDeciderActive = false := rfl
  refine ⟨?_, rfl, ?_⟩
  · unfold clickHandler
    rw [hov]
    simp only [boardClick, hlog, clickScore_degenerate_origin, hact]
    norm_num [redrawAll_markerLayer_length, stIdle]
  · unfold clickHandler
    rw [hov]
    simp only [boardClick, hlog, clickScore_degenerate_origin]
    simp

/-! ### C7 -/

lemma bullsDeciderAddMarker_length (W H : ℚ) (now : ℝ) (st : BoardState) (xn yn : ℝ) :
    (bullsDeciderAddMarker W H now st xn yn).bullsMarkers.length
      = st.bullsMarkers.length + 1 := by
  unfold bullsDeciderAddMarker
  rw [redrawAll_bullsMarkers_length]
  simp

lemma addMarkerTimes_length (W H : ℚ) (now xn yn : ℝ) (n : ℕ) (st : BoardState) :
    (addMarkerTimes W H now xn yn n st).bullsMarkers.length
      = st.bullsMarkers.length + n := by
  induction n with
  | zero => rfl
  | succ k ih =>
      show (bullsDeciderAddMarker W H now (addMarkerTimes W H now xn yn k st) xn yn).bullsMarkers.length = _
      rw [bullsDeciderAddMarker_length, ih]
      omega

lemma cap_append_le {α : Type} (l : List α) (a : α) (h : l.length ≤ 80) :
    (if 80 < (l ++ [a]).length then (l ++ [a]).tail else l ++ [a]).length ≤ 80 := by
  by_cases hl : 80 < (l ++ [a]).length
  · rw [if_pos hl]
    simp only [List.length_tail, List.length_append, List.length_singleton]
    omega
  · rw [if_neg hl]
    omega

lemma boardClick_markerLayer_le (W H : ℚ) (now : ℝ) (st : BoardState) (px py : ℝ)
    (h : st.markerLayer.length ≤ 80) :
    (boardClick W H now st px py).state.markerLayer.length ≤ 80 := by
  rcases hsc : clickScore (computeSizes W H) (inverseLogical st.zoom W H px py).1
      (inverseLogical st.zoom W H px py).2 with _ | hit
  · simp only [boardClick, hsc]
    exact h
  · simp only [boardClick, hsc]
    by_cases ha : st.bullsDeciderActive = true
    · rw [if_pos ha, redrawAll_markerLayer_length]
      exact h
    · rw [if_neg ha, redrawAll_markerLayer_length]
      exact cap_append_le _ _ h

lemma stZoomToBull_markerLayer_length (W H : ℚ) (now : ℝ) (st : BoardState) (scale dur : ℝ) :
    (stZoomToBull W H now st scale dur).markerLayer.length = st.markerLayer.length := by
  unfold stZoomToBull
  rw [stAnimateZoomTo_markerLayer_length]

lemma stResetZoom_markerLayer_length (W H : ℚ) (now : ℝ) (st : BoardState) (dur : ℝ) :
    (stResetZoom W H now st dur).markerLayer.length = st.markerLayer.length := by
  unfold stResetZoom
  rw [stAnimateZoomTo_markerLayer_length]

lemma bullsDeciderTogglePauseZoom_markerLayer_length (W H : ℚ) (now : ℝ) (st : BoardState) :
    (bullsDeciderTogglePauseZoom W H now st).markerLayer.length
      = st.markerLayer.length := by
  unfold bullsDeciderTogglePauseZoom
  by_cases h : st.bullsDeciderActive = false
  · rw [if_pos h]
  · rw [if_neg h]
    by_cases hz : st.bullsDeciderZoomed = true
    · rw [if_pos hz, redrawAll_markerLayer_length, stResetZoom_markerLayer_length]
    · rw [if_neg hz, redrawAll_markerLayer_length, stZoomToBull_markerLayer_length]

lemma bullsDeciderTempUnzoom_markerLayer_length (W H : ℚ) (now : ℝ) (st : BoardState) :
    (bullsDeciderTempUnzoom W H now st).markerLayer.length = st.markerLayer.length := by
  unfold bullsDeciderTempUnzoom
  by_cases h : st.bullsDeciderActive = false
  · rw [if_pos h]
  · rw [if_neg h, redrawAll_markerLayer_length, stResetZoom_markerLayer_length]

lemma bullsDeciderEnd_markerLayer_length (W H : ℚ) (now : ℝ) (st : BoardState) :
    (bullsDeciderEnd W H now st).markerLayer.length = st.markerLayer.length := by
  unfold bullsDeciderEnd
  rw [redrawAll_markerLayer_length, stResetZoom_markerLayer_length]

/-- C7 (amended): only the primary marker layer is capped, and only by the
click handler itself — a board click never grows the official layer past 80
markers (the oldest is evicted when the cap is exceeded), but every decider
append (bullsDeciderAddMarker, and clicks during an active session, which
take the same push) grows the decider layer by exactly one with no cap. -/
theorem C7_amended_only_primary_capped :
    (∀ (W H : ℚ) (now : ℝ) (st : BoardState) (px py : ℝ),
      st.markerLayer.length ≤ 80 →
      (clickHandler W H now st px py).state.markerLayer.length ≤ 80) ∧
    (∀ (W H : ℚ) (now : ℝ) (st : BoardState) (xn yn : ℝ),
      (bullsDeciderAddMarker W H now st xn yn).bullsMarkers.length
        = st.bullsMarkers.length + 1) := by
  constructor
  · intro W H now st px py h
    unfold clickHandler
    rcases hst : st.overlay with _ | ov
    · exact boardClick_markerLayer_le W H now st px py h
    · simp only []
      by_cases hz : rectContains ov.btnZoom px py
      · rw [if_pos hz]
        simp only []
        by_cases ha : st.bullsDeciderActive = true
        · rw [if_pos ha, bullsDeciderTogglePauseZoom_markerLayer_length]
          exact h
        · rw [if_neg ha, stZoomToBull_markerLayer_length]
          exact h
      · rw [if_neg hz]
        by_cases hc : rectContains ov.btnCancel px py
        · rw [if_pos hc]
          simp only []
          by_cases ha : st.bullsDeciderActive = true
          · rw [if_pos ha, bullsDeciderTempUnzoom_markerLayer_length]
            exact h
          · rw [if_neg ha, bullsDeciderEnd_markerLayer_length]
            exact h
        · rw [if_neg hc]
          exact boardClick_markerLayer_le W H now st px py h
  · exact bullsDeciderAddMarker_length

/-- Witness for C7 (amended): the empty two-player session state, one board
click and one decider append. -/
theorem C7_amended_only_primary_capped_witness :
    (clickHandler 640 640 0 stTwoPlayers 320 120).state.markerLayer.length ≤ 80 ∧
    (bullsDeciderAddMarker 640 640 0 stTwoPlayers 0.5 0.5).bullsMarkers.length
      = stTwoPlayers.bullsMarkers.length + 1 :=
  ⟨C7_amended_only_primary_capped.1 640 640 0 stTwoPlayers 320 120
      (by norm_num [stTwoPlayers]),
   C7_amended_only_primary_capped.2 640 640 0 stTwoPlayers 0.5 0.5⟩

/-- Counterexample to C7 as stated: 81 decider appends from an empty
decider layer leave 81 markers — the decider sequence is not bounded by
the 80-marker cap that the primary layer uses, and nothing is evicted. -/
theorem C7_counterexample :
    (addMarkerTimes 640 640 0 0.5 0.5 81 stTwoPlayers).bullsMarkers.length = 81 ∧
    80 < 81 := by
  constructor
  · rw [addMarkerTimes_length]
    norm_num [stTwoPlayers]
  · norm_num

/-! ### Cast lemmas for the derived sizes -/

lemma outerRadius_cast_pos {W H : ℚ} (hW : 0 < W) (hH : 0 < H) :
    (0 : ℝ) < ((computeSizes W H).outerRadius : ℝ) := by
  exact_mod_cast computeSizes_outerRadius_pos hW hH

lemma tripleInner_cast (W H : ℚ) :
    ((computeSizes W H).tripleInner : ℝ) = ((computeSizes W H).outerRadius : ℝ) * 0.58 := by
  rw [show (computeSizes W H).tripleInner = (computeSizes W H).outerRadius * 0.58 from rfl]
  push_cast
  norm_num

lemma tripleOuter_cast (W H : ℚ) :
    ((computeSizes W H).tripleOuter : ℝ) = ((computeSizes W H).outerRadius : ℝ) * 0.66 := by
  rw [show (computeSizes W H).tripleOuter = (computeSizes W H).outerRadius * 0.66 from rfl]
  push_cast
  norm_num

lemma doubleInner_cast (W H : ℚ) :
    ((computeSizes W H).doubleInner : ℝ) = ((computeSizes W H).outerRadius : ℝ) * 0.88 := by
  rw [show (computeSizes W H).doubleInner = (computeSizes W H).outerRadius * 0.88 from rfl]
  push_cast
  norm_num

lemma doubleOuter_cast (W H : ℚ) :
    ((computeSizes W H).doubleOuter : ℝ) = ((computeSizes W H).outerRadius : ℝ) := rfl

lemma bullInner_cast (W H : ℚ) :
    ((computeSizes W H).bullInner : ℝ) = ((computeSizes W H).outerRadius : ℝ) * 0.03 := by
  rw [show (computeSizes W H).bullInner = (computeSizes W H).outerRadius * 0.03 from rfl]
  push_cast
  norm_num

lemma bullOuter_cast (W H : ℚ) :
    ((computeSizes W H).bullOuter : ℝ) = ((computeSizes W H).outerRadius : ℝ) * 0.06 := by
  rw [show (computeSizes W H).bullOuter = (computeSizes W H).outerRadius * 0.06 from rfl]
  push_cast
  norm_num

lemma missRing_cast (W H : ℚ) :
    ((computeSizes W H).OUTER_MISS_RING : ℝ) = ((computeSizes W H).outerRadius : ℝ) * 1.35 := by
  rw [show (computeSizes W H).OUTER_MISS_RING = (computeSizes W H).outerRadius * 1.35 from rfl]
  push_cast
  norm_num

/-! ### C4 -/

lemma cos_neg_three_pi_div_five_ne_zero : Real.cos (-(3 * Real.pi / 5)) ≠ 0 := by
  rw [Real.cos_neg]
  intro h
  rcases Real.cos_eq_zero_iff.mp h with ⟨k, hk⟩
  have hpi : Real.pi ≠ 0 := Real.pi_ne_zero
  have hmul : (6 : ℝ) * Real.pi = (5 * (2 * (k : ℝ) + 1)) * Real.pi := by
    have hk' : 3 * Real.pi / 5 = (2 * (k : ℝ) + 1) * Real.pi / 2 := hk
    nlinarith [hk']
  have h6 : (6 : ℝ) = 5 * (2 * (k : ℝ) + 1) := mul_right_cancel₀ hpi hmul
  have h6' : (6 : ℤ) = 5 * (2 * k + 1) := by exact_mod_cast h6
  omega

/-- C4 (amended): for a hit without stored coordinates whose sector value
is neither 25 nor in SECTOR_ORDER, hitToCoord does not fall back to the
board center and signals no error: indexOf yields -1 and the function
silently returns the coordinate of the phantom wedge -1 (mid-angle minus
three fifths pi) at the band radius of the multiplier, a point distinct
from the center whenever the board has positive dimensions. -/
theorem C4_amended_invalid_sector_phantom (W H : ℚ) (hW : 0 < W) (hH : 0 < H)
    (v m : ℤ) (hv : v ∉ SECTOR_ORDER) (hv25 : v ≠ 25) :
    (∃ rr : ℝ, 0 < rr ∧
      hitToCoord W H ⟨none, none, v, m⟩ =
        (((computeSizes W H).cx : ℝ) + Real.cos (-(3 * Real.pi / 5)) * rr,
         ((computeSizes W H).cy : ℝ) + Real.sin (-(3 * Real.pi / 5)) * rr)) ∧
    hitToCoord W H ⟨none, none, v, m⟩ ≠
      (((computeSizes W H).cx : ℝ), ((computeSizes W H).cy : ℝ)) := by
  have hidx : jsIndexOf SECTOR_ORDER v = -1 := by
    unfold jsIndexOf
    rw [if_neg hv]
  have hmid : ((-1 : ℤ) : ℝ) * (Real.pi * 2 / 20) - Real.pi / 2 - Real.pi * 2 / 20 / 2
      + Real.pi * 2 / 20 / 2 = -(3 * Real.pi / 5) := by push_cast; ring
  have hR := outerRadius_cast_pos hW hH
  have hrpos : 0 <
      (if m = 3 then (((computeSizes W H).tripleInner : ℝ) +
          ((computeSizes W H).tripleOuter : ℝ)) / 2
        else if m = 2 then (((computeSizes W H).doubleInner : ℝ) +
          ((computeSizes W H).doubleOuter : ℝ)) / 2
        else if m = 1 then (((computeSizes W H).tripleOuter : ℝ) +
          ((computeSizes W H).doubleInner : ℝ)) / 2 -
          ((computeSizes W H).outerRadius : ℝ) * 0.03
        else ((computeSizes W H).OUTER_MISS_RING : ℝ)) := by
    split_ifs
    · rw [tripleInner_cast, tripleOuter_cast]; nlinarith
    · rw [doubleInner_cast, doubleOuter_cast]; nlinarith
    · rw [tripleOuter_cast, doubleInner_cast]; nlinarith
    · rw [missRing_cast]; nlinarith
  have hcoord : hitToCoord W H ⟨none, none, v, m⟩ =
      (((computeSizes W H).cx : ℝ) + Real.cos (-(3 * Real.pi / 5)) *
        (if m = 3 then (((computeSizes W H).tripleInner : ℝ) +
            ((computeSizes W H).tripleOuter : ℝ)) / 2
          else if m = 2 then (((computeSizes W H).doubleInner : ℝ) +
            ((computeSizes W H).doubleOuter : ℝ)) / 2
          else if m = 1 then (((computeSizes W H).tripleOuter : ℝ) +
            ((computeSizes W H).doubleInner : ℝ)) / 2 -
            ((computeSizes W H).outerRadius : ℝ) * 0.03
          else ((computeSizes W H).OUTER_MISS_RING : ℝ)),
       ((computeSizes W H).cy : ℝ) + Real.sin (-(3 * Real.pi / 5)) *
        (if m = 3 then (((computeSizes W H).tripleInner : ℝ) +
            ((computeSizes W H).tripleOuter : ℝ)) / 2
          else if m = 2 then (((computeSizes W H).doubleInner : ℝ) +
            ((computeSizes W H).doubleOuter : ℝ)) / 2
          else if m = 1 then (((computeSizes W H).tripleOuter : ℝ) +
            ((computeSizes W H).doubleInner : ℝ)) / 2 -
            ((computeSizes W H).outerRadius : ℝ) * 0.03
          else ((computeSizes W H).OUTER_MISS_RING : ℝ))) := by
    simp only [hitToCoord]
    rw [if_neg hv25, hidx, hmid]
  refine ⟨⟨_, hrpos, hcoord⟩, ?_⟩
  rw [hcoord]
  intro heq
  have hfst := congrArg Prod.fst heq
  simp only [Prod.fst] at hfst
  have hzero : Real.cos (-(3 * Real.pi / 5)) *
      (if m = 3 then (((computeSizes W H).tripleInner : ℝ) +
          ((computeSizes W H).tripleOuter : ℝ)) / 2
        else if m = 2 then (((computeSizes W H).doubleInner : ℝ) +
          ((computeSizes W H).doubleOuter : ℝ)) / 2
        else if m = 1 then (((computeSizes W H).tripleOuter : ℝ) +
          ((computeSizes W H).doubleInner : ℝ)) / 2 -
          ((computeSizes W H).outerRadius : ℝ) * 0.03
        else ((computeSizes W H).OUTER_MISS_RING : ℝ)) = 0 := by linarith
  rcases mul_eq_zero.mp hzero with h | h
  · exact cos_neg_three_pi_div_five_ne_zero h
  · exact absurd h (ne_of_gt hrpos)

/-- Witness for C4 (amended): sector value 21 (not a sector) with
multiplier 1 on a 640 by 640 board. -/
theorem C4_amended_invalid_sector_phantom_witness :
    (∃ rr : ℝ, 0 < rr ∧
      hitToCoord 640 640 ⟨none, none, 21, 1⟩ =
        (((computeSizes 640 640).cx : ℝ) + Real.cos (-(3 * Real.pi / 5)) * rr,
         ((computeSizes 640 640).cy : ℝ) + Real.sin (-(3 * Real.pi / 5)) * rr)) ∧
    hitToCoord 640 640 ⟨none, none, 21, 1⟩ ≠
      (((computeSizes 640 640).cx : ℝ), ((computeSizes 640 640).cy : ℝ)) :=
  C4_amended_invalid_sector_phantom 640 640 (by norm_num) (by norm_num) 21 1
    (by decide) (by decide)

/-- Counterexample to C4 as stated: the invalid sector value 21 with
multiplier 1 makes hitToCoord silently return a coordinate that is not the
board center of a 640 by 640 board (and the function has no error
channel). -/
theorem C4_counterexample :
    hitToCoord 640 640 ⟨none, none, 21, 1⟩ ≠ ((320 : ℝ), (320 : ℝ)) := by
  have hidx : jsIndexOf SECTOR_ORDER 21 = -1 := by decide
  have hmid : ((-1 : ℤ) : ℝ) * (Real.pi * 2 / 20) - Real.pi / 2 - Real.pi * 2 / 20 / 2
      + Real.pi * 2 / 20 / 2 = -(3 * Real.pi / 5) := by push_cast; ring
  have hcx : ((computeSizes 640 640).cx : ℝ) = 320 := by norm_num [computeSizes]
  have hR : (0 : ℝ) < ((computeSizes 640 640).outerRadius : ℝ) := by
    norm_num [computeSizes]
  have hrpos : 0 < (((computeSizes 640 640).tripleOuter : ℝ) +
      ((computeSizes 640 640).doubleInner : ℝ)) / 2 -
      ((computeSizes 640 640).outerRadius : ℝ) * 0.03 := by
    rw [tripleOuter_cast, doubleInner_cast]
    nlinarith
  have hcoord : hitToCoord 640 640 ⟨none, none, 21, 1⟩ =
      (((computeSizes 640 640).cx : ℝ) + Real.cos (-(3 * Real.pi / 5)) *
        ((((computeSizes 640 640).tripleOuter : ℝ) +
          ((computeSizes 640 640).doubleInner : ℝ)) / 2 -
          ((computeSizes 640 640).outerRadius : ℝ) * 0.03),
       ((computeSizes 640 640).cy : ℝ) + Real.sin (-(3 * Real.pi / 5)) *
        ((((computeSizes 640 640).tripleOuter : ℝ) +
          ((computeSizes 640 640).doubleInner : ℝ)) / 2 -
          ((computeSizes 640 640).outerRadius : ℝ) * 0.03)) := by
    simp only [hitToCoord]
    rw [if_neg (by decide : ¬((21 : ℤ) = 25)), hidx, hmid]
    rw [if_neg (by decide : ¬((1 : ℤ) = 3)), if_neg (by decide : ¬((1 : ℤ) = 2))]
    simp
  rw [hcoord]
  intro heq
  have hfst := congrArg Prod.fst heq
  simp only [Prod.fst] at hfst
  rw [hcx] at hfst
  have hzero : Real.cos (-(3 * Real.pi / 5)) *
      ((((computeSizes 640 640).tripleOuter : ℝ) +
        ((computeSizes 640 640).doubleInner : ℝ)) / 2 -
        ((computeSizes 640 640).outerRadius : ℝ) * 0.03) = 0 := by linarith
  rcases mul_eq_zero.mp hzero with h | h
  · exact cos_neg_three_pi_div_five_ne_zero h
  · exact absurd h (ne_of_gt hrpos)

/-! ### C9 -/

lemma radiusAt_polar (sz : Sizes) (θ r : ℝ) (hr : 0 ≤ r) :
    radiusAt sz ((sz.cx : ℝ) + Real.cos θ * r) ((sz.cy : ℝ) + Real.sin θ * r) = r := by
  unfold radiusAt
  have h1 : (sz.cx : ℝ) + Real.cos θ * r - (sz.cx : ℝ) = Real.cos θ * r := by ring
  have h2 : (sz.cy : ℝ) + Real.sin θ * r - (sz.cy : ℝ) = Real.sin θ * r := by ring
  rw [h1, h2]
  have h3 : Real.cos θ * r * (Real.cos θ * r) + Real.sin θ * r * (Real.sin θ * r) = r ^ 2 := by
    have hcs := Real.sin_sq_add_cos_sq θ
    nlinarith [hcs]
  rw [h3, Real.sqrt_sq hr]

lemma mk_eq_ofReal_mul (c s r : ℝ) : (⟨c * r, s * r⟩ : ℂ) = (r : ℂ) * (⟨c, s⟩ : ℂ) := by
  apply Complex.ext <;> simp [Complex.mul_re, Complex.mul_im] <;> ring

lemma atan2_polar (θ r : ℝ) (hr : 0 < r) (hθ : θ ∈ Set.Ioc (-Real.pi) Real.pi) :
    atan2 (Real.sin θ * r) (Real.cos θ * r) = θ := by
  unfold atan2
  rw [mk_eq_ofReal_mul, Complex.arg_real_mul _ hr]
  rw [Complex.mk_eq_add_mul_I, Complex.ofReal_cos, Complex.ofReal_sin]
  exact Complex.arg_cos_add_sin_mul_I hθ

lemma sectorIndexAt_polar (sz : Sizes) (i : ℕ) (hi : i < 20) (r : ℝ) (hr : 0 < r) :
    sectorIndexAt sz
      ((sz.cx : ℝ) + Real.cos ((i : ℝ) * (Real.pi / 10) - Real.pi / 2) * r)
      ((sz.cy : ℝ) + Real.sin ((i : ℝ) * (Real.pi / 10) - Real.pi / 2) * r) = (i : ℤ) := by
  have hpi := Real.pi_pos
  have hi19 : (i : ℝ) ≤ 19 := by
    have : i ≤ 19 := Nat.lt_succ_iff.mp hi
    exact_mod_cast this
  have hi0 : (0 : ℝ) ≤ (i : ℝ) := Nat.cast_nonneg i
  unfold sectorIndexAt
  have hdx : (sz.cx : ℝ) + Real.cos ((i : ℝ) * (Real.pi / 10) - Real.pi / 2) * r - (sz.cx : ℝ)
      = Real.cos ((i : ℝ) * (Real.pi / 10) - Real.pi / 2) * r := by ring
  have hdy : (sz.cy : ℝ) + Real.sin ((i : ℝ) * (Real.pi / 10) - Real.pi / 2) * r - (sz.cy : ℝ)
      = Real.sin ((i : ℝ) * (Real.pi / 10) - Real.pi / 2) * r := by ring
  dsimp only
  rw [hdx, hdy]
  have hfloor : ⌊((i : ℝ) * (Real.pi / 10) + Real.pi * 2 / 20 / 2) / (Real.pi * 2) * 20⌋
      = (i : ℤ) := by
    have harg : ((i : ℝ) * (Real.pi / 10) + Real.pi * 2 / 20 / 2) / (Real.pi * 2) * 20
        = (i : ℝ) + 1 / 2 := by
      have hpne : Real.pi ≠ 0 := Real.pi_ne_zero
      field_simp
      ring
    rw [harg]
    refine Int.floor_eq_iff.mpr ⟨?_, ?_⟩
    · push_cast
      linarith
    · push_cast
      linarith
  by_cases h15 : (i : ℝ) ≤ 15
  · have hmem : ((i : ℝ) * (Real.pi / 10) - Real.pi / 2) ∈ Set.Ioc (-Real.pi) Real.pi := by
      constructor
      · nlinarith
      · nlinarith
    rw [atan2_polar _ _ hr hmem]
    have hn0 : (i : ℝ) * (Real.pi / 10) - Real.pi / 2 + Real.pi / 2
        = (i : ℝ) * (Real.pi / 10) := by ring
    rw [hn0]
    rw [if_neg (by nlinarith : ¬((i : ℝ) * (Real.pi / 10) < 0))]
    rw [if_neg (by nlinarith :
      ¬(Real.pi * 2 ≤ (i : ℝ) * (Real.pi / 10) + Real.pi * 2 / 20 / 2))]
    exact hfloor
  · push_neg at h15
    have h16 : (16 : ℝ) ≤ (i : ℝ) := by
      have h15n : 15 < i := by exact_mod_cast h15
      exact_mod_cast h15n
    have hcos : Real.cos ((i : ℝ) * (Real.pi / 10) - Real.pi / 2)
        = Real.cos ((i : ℝ) * (Real.pi / 10) - Real.pi / 2 - 2 * Real.pi) :=
      (Real.cos_sub_two_pi _).symm
    have hsin : Real.sin ((i : ℝ) * (Real.pi / 10) - Real.pi / 2)
        = Real.sin ((i : ℝ) * (Real.pi / 10) - Real.pi / 2 - 2 * Real.pi) :=
      (Real.sin_sub_two_pi _).symm
    rw [hcos, hsin]
    have hmem : ((i : ℝ) * (Real.pi / 10) - Real.pi / 2 - 2 * Real.pi)
        ∈ Set.Ioc (-Real.pi) Real.pi := by
      constructor
      · nlinarith
      · nlinarith
    rw [atan2_polar _ _ hr hmem]
    have hn0 : (i : ℝ) * (Real.pi / 10) - Real.pi / 2 - 2 * Real.pi + Real.pi / 2
        = (i : ℝ) * (Real.pi / 10) - 2 * Real.pi := by ring
    rw [hn0]
    rw [if_pos (by nlinarith : (i : ℝ) * (Real.pi / 10) - 2 * Real.pi < 0)]
    have hn1 : (i : ℝ) * (Real.pi / 10) - 2 * Real.pi + Real.pi * 2
        = (i : ℝ) * (Real.pi / 10) := by ring
    rw [hn1]
    rw [if_neg (by nlinarith :
      ¬(Real.pi * 2 ≤ (i : ℝ) * (Real.pi / 10) + Real.pi * 2 / 20 / 2))]
    exact hfloor

/-- C9: for each of the 20 canonical sector values with multiplier 1,
mapping the hit to a pixel with hitToCoord (band-midpoint radius of the
outer single band) and classifying that pixel with the click-handler
geometry yields the same sector with multiplier 1 and the single label. -/
theorem C9_single_roundtrip (i : ℕ) (hi : i < 20) (W H : ℚ) (hW : 0 < W) (hH : 0 < H) :
    clickScore (computeSizes W H)
        (hitToCoord W H ⟨none, none, SECTOR_ORDER.getD i 0, 1⟩).1
        (hitToCoord W H ⟨none, none, SECTOR_ORDER.getD i 0, 1⟩).2
      = some ⟨SECTOR_ORDER.getD i 0, 1, "S" ++ toString (SECTOR_ORDER.getD i 0)⟩ := by
  have h25 : ¬(SECTOR_ORDER.getD i 0 = 25) := by
    have hall : ∀ j : ℕ, j < 20 → ¬(SECTOR_ORDER.getD j 0 = 25) := by decide
    exact hall i hi
  have hidx : jsIndexOf SECTOR_ORDER (SECTOR_ORDER.getD i 0) = (i : ℤ) := by
    have hall : ∀ j : ℕ, j < 20 →
        jsIndexOf SECTOR_ORDER (SECTOR_ORDER.getD j 0) = (j : ℤ) := by decide
    exact hall i hi
  have hR := outerRadius_cast_pos hW hH
  have hr1 : (((computeSizes W H).tripleOuter : ℝ) +
      ((computeSizes W H).doubleInner : ℝ)) / 2 -
      ((computeSizes W H).outerRadius : ℝ) * 0.03
      = ((computeSizes W H).outerRadius : ℝ) * 0.74 := by
    rw [tripleOuter_cast, doubleInner_cast]
    ring
  have hr1pos : 0 < (((computeSizes W H).tripleOuter : ℝ) +
      ((computeSizes W H).doubleInner : ℝ)) / 2 -
      ((computeSizes W H).outerRadius : ℝ) * 0.03 := by
    rw [hr1]
    nlinarith
  have hmid : ((((i : ℤ)) : ℝ)) * (Real.pi * 2 / 20) - Real.pi / 2 - Real.pi * 2 / 20 / 2
      + Real.pi * 2 / 20 / 2 = (i : ℝ) * (Real.pi / 10) - Real.pi / 2 := by
    push_cast
    ring
  have hcoord : hitToCoord W H ⟨none, none, SECTOR_ORDER.getD i 0, 1⟩ =
      (((computeSizes W H).cx : ℝ) +
        Real.cos ((i : ℝ) * (Real.pi / 10) - Real.pi / 2) *
          ((((computeSizes W H).tripleOuter : ℝ) +
            ((computeSizes W H).doubleInner : ℝ)) / 2 -
            ((computeSizes W H).outerRadius : ℝ) * 0.03),
       ((computeSizes W H).cy : ℝ) +
        Real.sin ((i : ℝ) * (Real.pi / 10) - Real.pi / 2) *
          ((((computeSizes W H).tripleOuter : ℝ) +
            ((computeSizes W H).doubleInner : ℝ)) / 2 -
            ((computeSizes W H).outerRadius : ℝ) * 0.03)) := by
    simp only [hitToCoord]
    rw [if_neg h25, hidx, hmid]
    rw [if_neg (by decide : ¬((1 : ℤ) = 3)), if_neg (by decide : ¬((1 : ℤ) = 2))]
    simp
  rw [hcoord]
  have hsec : sectorValueAt (computeSizes W H)
      (((computeSizes W H).cx : ℝ) +
        Real.cos ((i : ℝ) * (Real.pi / 10) - Real.pi / 2) *
          ((((computeSizes W H).tripleOuter : ℝ) +
            ((computeSizes W H).doubleInner : ℝ)) / 2 -
            ((computeSizes W H).outerRadius : ℝ) * 0.03))
      (((computeSizes W H).cy : ℝ) +
        Real.sin ((i : ℝ) * (Real.pi / 10) - Real.pi / 2) *
          ((((computeSizes W H).tripleOuter : ℝ) +
            ((computeSizes W H).doubleInner : ℝ)) / 2 -
            ((computeSizes W H).outerRadius : ℝ) * 0.03))
      = SECTOR_ORDER.getD i 0 := by
    unfold sectorValueAt
    rw [sectorIndexAt_polar (computeSizes W H) i hi _ hr1pos]
    have hmod : ((i : ℤ) % 20) = (i : ℤ) :=
      Int.emod_eq_of_lt (by positivity) (by exact_mod_cast hi)
    rw [hmod, Int.toNat_natCast]
  unfold clickScore
  rw [radiusAt_polar _ _ _ hr1pos.le]
  rw [if_neg (by rw [missRing_cast, hr1]; intro hlt; nlinarith)]
  congr 1
  unfold ringCode
  rw [if_neg (by
      rintro ⟨ha, _⟩
      rw [hr1] at ha
      nlinarith),
    if_neg (by
      rw [bullInner_cast, hr1]
      intro hle
      nlinarith),
    if_neg (by
      rw [bullOuter_cast, hr1]
      intro hle
      nlinarith),
    if_neg (by
      rintro ⟨_, hb⟩
      rw [hr1, tripleOuter_cast] at hb
      nlinarith),
    if_neg (by
      rintro ⟨ha, _⟩
      rw [hr1, doubleInner_cast] at ha
      nlinarith)]
  rw [hsec]

/-- Witness for C9 at sector index 0 (sector 20) on a 640 by 640 board. -/
theorem C9_single_roundtrip_witness :
    clickScore (computeSizes 640 640)
        (hitToCoord 640 640 ⟨none, none, SECTOR_ORDER.getD 0 0, 1⟩).1
        (hitToCoord 640 640 ⟨none, none, SECTOR_ORDER.getD 0 0, 1⟩).2
      = some ⟨SECTOR_ORDER.getD 0 0, 1, "S" ++ toString (SECTOR_ORDER.getD 0 0)⟩ :=
  C9_single_roundtrip 0 (by norm_num) 640 640 (by norm_num) (by norm_num)

end Board
